import Mathlib

/-!
# Verification of the `pretty-name` type-descriptor canonicalizer

Shallow embedding of `src/type_name.rs`. The data model mirrors the `syn`
type-expression grammar that the source manipulates: `Ty` embeds `syn::Type`,
`Path` embeds `syn::Path`, and so on. Machine-irrelevant token payloads
(identifiers, literal expressions, verbatim token streams) are carried as
`String`s. The in-place mutating functions `truncate_type` and `truncate_path`
are embedded as pure tree transformers.
-/

namespace PrettyName

mutual

/-- Embeds `syn::Type`, the one syntactic type position. The `other`
constructor stands for the non-exhaustive future variants absorbed by the
source's catch-all arm. -/
inductive Ty where
  | array (elem : Ty) (len : String) : Ty
  | bareFn (unsafety : Bool) (abi : Option String) (inputs : List BareFnArg)
      (variadic : Bool) (output : Option Ty) : Ty
  | group (elem : Ty) : Ty
  | implTrait (bounds : List TypeParamBound) : Ty
  | infer : Ty
  | mac (tokens : String) : Ty
  | never : Ty
  | paren (elem : Ty) : Ty
  | path (qself : Option Ty) (p : Path) : Ty
  | ptr (mutability : Bool) (elem : Ty) : Ty
  | reference (lifetime : Option String) (mutability : Bool) (elem : Ty) : Ty
  | slice (elem : Ty) : Ty
  | traitObject (dynToken : Bool) (bounds : List TypeParamBound) : Ty
  | tuple (elems : List Ty) : Ty
  | verbatim (tokens : String) : Ty
  | other (tokens : String) : Ty

/-- Embeds `syn::Path`: an optional leading-root marker `::` and a segment
sequence. -/
inductive Path where
  | mk (leadingColon : Bool) (segments : List PathSegment) : Path

/-- Embeds `syn::PathSegment`: an identifier plus its argument list. -/
inductive PathSegment where
  | mk (ident : String) (arguments : PathArguments) : PathSegment

/-- Embeds `syn::PathArguments`. -/
inductive PathArguments where
  | none : PathArguments
  | angleBracketed (args : List GenericArgument) : PathArguments
  | parenthesized (inputs : List Ty) (output : Option Ty) : PathArguments

/-- Embeds `syn::GenericArgument`. -/
inductive GenericArgument where
  | lifetime (name : String) : GenericArgument
  | type (t : Ty) : GenericArgument
  | constExpr (expr : String) : GenericArgument
  | assocType (ident : String) (t : Ty) : GenericArgument
  | assocConst (ident : String) (expr : String) : GenericArgument
  | constraint (ident : String) : GenericArgument

/-- Embeds `syn::TypeParamBound`; the trait case carries the fields of
`syn::TraitBound` (paren token, `?` modifier, bound lifetimes, path). -/
inductive TypeParamBound where
  | traitBound (parenToken : Bool) (maybeModifier : Bool)
      (boundLifetimes : Option String) (p : Path) : TypeParamBound
  | lifetime (name : String) : TypeParamBound
  | other (tokens : String) : TypeParamBound

/-- Embeds `syn::BareFnArg`: an optionally named function-pointer parameter. -/
inductive BareFnArg where
  | mk (name : Option String) (t : Ty) : BareFnArg

end

/-- Leading-root marker of a path. -/
def Path.leadingColon : Path → Bool
  | .mk lc _ => lc

/-- Segment sequence of a path. -/
def Path.segments : Path → List PathSegment
  | .mk _ segs => segs

/-- Identifier of a path segment. -/
def PathSegment.ident : PathSegment → String
  | .mk id _ => id

/-- Argument list of a path segment. -/
def PathSegment.arguments : PathSegment → PathArguments
  | .mk _ args => args

mutual

/-- Embeds `truncate_type` from `src/type_name.rs`: the in-place tree walk,
rendered as a pure transformer. Leaf variants (`Infer`, `Macro`, `Never`,
`Verbatim`) and the non-exhaustive catch-all are returned unchanged; wrapper
variants recurse into their single child; `Reference` additionally clears its
lifetime; `Path` delegates to `truncate_path`; `BareFn` recurses into every
input and the return type; `ImplTrait`/`TraitObject` truncate the path of
every trait bound; `Tuple` recurses into every element. -/
def truncate_type : Ty → Ty
  | .infer => .infer
  | .mac s => .mac s
  | .never => .never
  | .verbatim s => .verbatim s
  | .other s => .other s
  | .array e len => .array (truncate_type e) len
  | .group e => .group (truncate_type e)
  | .paren e => .paren (truncate_type e)
  | .ptr m e => .ptr m (truncate_type e)
  | .slice e => .slice (truncate_type e)
  | .reference _ m e => .reference Option.none m (truncate_type e)
  | .path q p => .path q (truncate_path p)
  | .bareFn u a ins v out => .bareFn u a (truncate_inputs ins) v (truncate_ret out)
  | .implTrait bs => .implTrait (truncate_bounds bs)
  | .traitObject d bs => .traitObject d (truncate_bounds bs)
  | .tuple es => .tuple (truncate_list es)

/-- `truncate_type` mapped over a type list (tuple elements, parenthesized
generic inputs). -/
def truncate_list : List Ty → List Ty
  | [] => []
  | t :: ts => truncate_type t :: truncate_list ts

/-- The `for input in ty.inputs` loop of the `BareFn` arm. -/
def truncate_inputs : List BareFnArg → List BareFnArg
  | [] => []
  | .mk n t :: rest => .mk n (truncate_type t) :: truncate_inputs rest

/-- The `if let ReturnType::Type` pattern: recurse into a present return
type. -/
def truncate_ret : Option Ty → Option Ty
  | Option.none => Option.none
  | some t => some (truncate_type t)

/-- The bound loop of the `ImplTrait`/`TraitObject` arms: only
`TypeParamBound::Trait` bounds have their path truncated; all other bounds
pass through. -/
def truncate_bounds : List TypeParamBound → List TypeParamBound
  | [] => []
  | .traitBound pt mm bl p :: rest =>
      .traitBound pt mm bl (truncate_path p) :: truncate_bounds rest
  | .lifetime s :: rest => .lifetime s :: truncate_bounds rest
  | .other s :: rest => .other s :: truncate_bounds rest

/-- Embeds `truncate_path` from `src/type_name.rs`: keep only the last
segment (with its arguments truncated), clear the leading-root marker; an
empty segment list stays empty. -/
def truncate_path : Path → Path
  | .mk _ segs => .mk false (truncate_segs segs)

/-- `segments.into_iter().last()` with argument truncation applied to the
surviving segment. -/
def truncate_segs : List PathSegment → List PathSegment
  | [] => []
  | [.mk id args] => [.mk id (truncate_arguments args)]
  | _ :: rest => truncate_segs rest

/-- The `match last_segment.arguments` of the source: recurse into
angle-bracketed and parenthesized argument lists. -/
def truncate_arguments : PathArguments → PathArguments
  | .none => .none
  | .angleBracketed gas => .angleBracketed (truncate_gas gas)
  | .parenthesized ins out => .parenthesized (truncate_list ins) (truncate_ret out)

/-- The generic-argument loop: only `Type` and `AssocType` arguments recurse;
lifetimes, const expressions, associated consts and constraints pass
through. -/
def truncate_gas : List GenericArgument → List GenericArgument
  | [] => []
  | .type t :: rest => .type (truncate_type t) :: truncate_gas rest
  | .assocType id t :: rest => .assocType id (truncate_type t) :: truncate_gas rest
  | .lifetime s :: rest => .lifetime s :: truncate_gas rest
  | .constExpr s :: rest => .constExpr s :: truncate_gas rest
  | .assocConst id s :: rest => .assocConst id s :: truncate_gas rest
  | .constraint id :: rest => .constraint id :: truncate_gas rest

end

mutual

/-- Node-wise checker over the positions the canonicalizer walks (exactly the
recursion positions of the spec's §3 data model: array, slice, tuple,
reference, pointer, group/paren, function-signature parameters and return,
trait bounds, and generic-argument lists). `r` is evaluated on the lifetime
slot of every `Reference` node, `pc` on every `Path` node. -/
def all_nodes (r : Option String → Bool) (pc : Path → Bool) : Ty → Bool
  | .infer | .mac _ | .never | .verbatim _ | .other _ => true
  | .array e _ => all_nodes r pc e
  | .group e => all_nodes r pc e
  | .paren e => all_nodes r pc e
  | .ptr _ e => all_nodes r pc e
  | .slice e => all_nodes r pc e
  | .reference lt _ e => r lt && all_nodes r pc e
  | .path _ p => path_nodes r pc p
  | .bareFn _ _ ins _ out => inputs_nodes r pc ins && ret_nodes r pc out
  | .implTrait bs => bounds_nodes r pc bs
  | .traitObject _ bs => bounds_nodes r pc bs
  | .tuple es => list_nodes r pc es

/-- `all_nodes` over a type list. -/
def list_nodes (r : Option String → Bool) (pc : Path → Bool) : List Ty → Bool
  | [] => true
  | t :: ts => all_nodes r pc t && list_nodes r pc ts

/-- `all_nodes` over function-pointer parameters. -/
def inputs_nodes (r : Option String → Bool) (pc : Path → Bool) : List BareFnArg → Bool
  | [] => true
  | .mk _ t :: rest => all_nodes r pc t && inputs_nodes r pc rest

/-- `all_nodes` over an optional return type. -/
def ret_nodes (r : Option String → Bool) (pc : Path → Bool) : Option Ty → Bool
  | Option.none => true
  | some t => all_nodes r pc t

/-- `all_nodes` over bound lists: trait bounds contribute their path, other
bounds carry no type positions. -/
def bounds_nodes (r : Option String → Bool) (pc : Path → Bool) : List TypeParamBound → Bool
  | [] => true
  | .traitBound _ _ _ p :: rest => path_nodes r pc p && bounds_nodes r pc rest
  | .lifetime _ :: rest => bounds_nodes r pc rest
  | .other _ :: rest => bounds_nodes r pc rest

/-- Check a path node itself (`pc`) and keep walking through its
argument lists. -/
def path_nodes (r : Option String → Bool) (pc : Path → Bool) : Path → Bool
  | .mk lc segs => pc (.mk lc segs) && segs_nodes r pc segs

/-- `path_nodes` over a segment list. -/
def segs_nodes (r : Option String → Bool) (pc : Path → Bool) : List PathSegment → Bool
  | [] => true
  | .mk _ args :: rest => args_nodes r pc args && segs_nodes r pc rest

/-- `path_nodes` over one segment's arguments. -/
def args_nodes (r : Option String → Bool) (pc : Path → Bool) : PathArguments → Bool
  | .none => true
  | .angleBracketed gas => gas_nodes r pc gas
  | .parenthesized ins out => list_nodes r pc ins && ret_nodes r pc out

/-- `all_nodes` over generic arguments: only `Type` and `AssocType` carry a
type position. -/
def gas_nodes (r : Option String → Bool) (pc : Path → Bool) : List GenericArgument → Bool
  | [] => true
  | .type t :: rest => all_nodes r pc t && gas_nodes r pc rest
  | .assocType _ t :: rest => all_nodes r pc t && gas_nodes r pc rest
  | .lifetime _ :: rest => gas_nodes r pc rest
  | .constExpr _ :: rest => gas_nodes r pc rest
  | .assocConst _ _ :: rest => gas_nodes r pc rest
  | .constraint _ :: rest => gas_nodes r pc rest

end

/-- A single path node is in truncated form: no leading-root marker and at
most one segment. -/
def shallow_truncated (p : Path) : Bool :=
  !p.leadingColon && decide (p.segments.length ≤ 1)

/-- Every path node of the tree is in truncated form, at every nesting
level. -/
def paths_truncated : Ty → Bool :=
  all_nodes (fun _ => true) shallow_truncated

/-- Every path node reachable from a path (itself included) is in truncated
form. -/
def path_fully_truncated : Path → Bool :=
  path_nodes (fun _ => true) shallow_truncated

/-- No `Reference` node of the tree carries a lifetime tag. -/
def no_ref_lifetime : Ty → Bool :=
  all_nodes Option.isNone (fun _ => true)

/-- Action of the bound loop on a single bound: trait bounds get their path
truncated, any other bound passes through unchanged. -/
def truncate_bound : TypeParamBound → TypeParamBound
  | .traitBound pt mm bl p => .traitBound pt mm bl (truncate_path p)
  | .lifetime s => .lifetime s
  | .other s => .other s

/-- Action of the generic-argument loop on a single argument: `Type` and
`AssocType` arguments recurse into `truncate_type`, any other argument passes
through unchanged. -/
def truncate_ga : GenericArgument → GenericArgument
  | .type t => .type (truncate_type t)
  | .assocType id t => .assocType id (truncate_type t)
  | .lifetime s => .lifetime s
  | .constExpr s => .constExpr s
  | .assocConst id s => .assocConst id s
  | .constraint id => .constraint id

/-- Number of elements when the type is a tuple. -/
def tuple_arity : Ty → Option Nat
  | .tuple es => some es.length
  | _ => Option.none

/-- Number of parameters when the type is a function pointer. -/
def fn_param_arity : Ty → Option Nat
  | .bareFn _ _ ins _ _ => some ins.length
  | _ => Option.none

/-- Number of angle-bracketed generic arguments of the final path segment. -/
def last_seg_generic_arity : Path → Option Nat
  | .mk _ segs =>
    match segs.getLast? with
    | some (.mk _ (.angleBracketed gas)) => some gas.length
    | _ => Option.none

/-- Thread-local cache table of `type_name`, embedded as an association list
from type identity (`TypeId`, embedded as `Nat`) to the rendered name. -/
def cache_find : List (Nat × String) → Nat → Option String
  | [], _ => Option.none
  | (k, v) :: rest, t => if k = t then some v else cache_find rest t

/-- Embeds the public entry `type_name` of `src/type_name.rs`. The
thread-local `HashMap` is made an explicit cache state; `internal` stands for
`type_name_internal::<T>` (pure in the type identity); the returned flag
records whether the vacant-entry arm ran, i.e. whether the
parse-canonicalize-render computation was performed on this call. -/
def type_name (internal : Nat → String) (t : Nat)
    (cache : List (Nat × String)) : String × List (Nat × String) × Bool :=
  match cache_find cache t with
  | some s => (s, cache, false)
  | Option.none => (internal t, (t, internal t) :: cache, true)

/-- Rust string slicing `s[start..stop]`, which panics when the bounds are
invalid; the panic is embedded as `Option.none`. -/
def str_slice (s : String) (start stop : Nat) : Option String :=
  if start ≤ stop ∧ stop ≤ s.length then
    some (String.mk (List.take (stop - start) (List.drop start s.toList)))
  else Option.none

/-- The fixed sentinel returned for unprocessable types. -/
def error_sentinel : String := "<error>"

/-- Embeds `type_name_internal` of `src/type_name.rs`. `parse` stands for
`syn::parse_str::<Type>` on the verbose descriptor and `format_tokens` for
`rust_format::RustFmt::default().format_tokens` on the canonicalized tree
wrapped as a dummy function (failure of either collaborator is
`Option.none`). On parse failure the function returns the sentinel; otherwise
it truncates the tree, takes the formatter output or the sentinel as
fallback, and slices between the length of the wrapping prefix (13 bytes,
the source's `"fn main() -> ".len()`) and the total length minus the length
of the wrapping suffix (5 bytes, the source's `" {}\r\n".len()`);
`Option.none` as overall result embeds a panic escaping to the caller. -/
def type_name_internal (parse : String → Option Ty) (format_tokens : Ty → Option String)
    (descriptor : String) : Option String :=
  match parse descriptor with
  | Option.none => some error_sentinel
  | some ty =>
    let ty2 := truncate_type ty
    let format_result := (format_tokens ty2).getD error_sentinel
    str_slice format_result "fn main() -> ".length (format_result.length - 5)


/-- Example from the spec: a trait object over a qualified formatting trait
plus a qualified marker trait. -/
def dyn_display_send_example : Ty :=
  Ty.traitObject true
    [TypeParamBound.traitBound false false Option.none
       (Path.mk false [PathSegment.mk "module" PathArguments.none,
                       PathSegment.mk "Display" PathArguments.none]),
     TypeParamBound.traitBound false false Option.none
       (Path.mk false [PathSegment.mk "module" PathArguments.none,
                       PathSegment.mk "marker" PathArguments.none,
                       PathSegment.mk "Send" PathArguments.none])]

/-- A trait object with a qualified trait bound plus a static-lifetime bound
(the string payload stands for the tick-static lifetime token). -/
def dyn_debug_static_example : Ty :=
  Ty.traitObject true
    [TypeParamBound.traitBound false false Option.none
       (Path.mk false [PathSegment.mk "core" PathArguments.none,
                       PathSegment.mk "fmt" PathArguments.none,
                       PathSegment.mk "Debug" PathArguments.none]),
     TypeParamBound.lifetime "static"]

mutual

theorem all_nodes_trunc (r : Option String → Bool) (pc : Path → Bool)
    (hr : r Option.none = true)
    (hpc : ∀ segs : List PathSegment, segs.length ≤ 1 → pc (Path.mk false segs) = true) :
    ∀ t : Ty, all_nodes r pc (truncate_type t) = true
  | .infer => rfl
  | .mac _ => rfl
  | .never => rfl
  | .verbatim _ => rfl
  | .other _ => rfl
  | .array e _ => all_nodes_trunc r pc hr hpc e
  | .group e => all_nodes_trunc r pc hr hpc e
  | .paren e => all_nodes_trunc r pc hr hpc e
  | .ptr _ e => all_nodes_trunc r pc hr hpc e
  | .slice e => all_nodes_trunc r pc hr hpc e
  | .reference _ m e => by
      simp only [truncate_type, all_nodes, hr, Bool.true_and]
      exact all_nodes_trunc r pc hr hpc e
  | .path q p => path_nodes_trunc r pc hr hpc p
  | .bareFn u a ins v out => by
      simp only [truncate_type, all_nodes, Bool.and_eq_true]
      exact ⟨inputs_nodes_trunc r pc hr hpc ins, ret_nodes_trunc r pc hr hpc out⟩
  | .implTrait bs => bounds_nodes_trunc r pc hr hpc bs
  | .traitObject _ bs => bounds_nodes_trunc r pc hr hpc bs
  | .tuple es => list_nodes_trunc r pc hr hpc es

theorem list_nodes_trunc (r : Option String → Bool) (pc : Path → Bool)
    (hr : r Option.none = true)
    (hpc : ∀ segs : List PathSegment, segs.length ≤ 1 → pc (Path.mk false segs) = true) :
    ∀ es : List Ty, list_nodes r pc (truncate_list es) = true
  | [] => rfl
  | t :: ts => by
      simp only [truncate_list, list_nodes, Bool.and_eq_true]
      exact ⟨all_nodes_trunc r pc hr hpc t, list_nodes_trunc r pc hr hpc ts⟩

theorem inputs_nodes_trunc (r : Option String → Bool) (pc : Path → Bool)
    (hr : r Option.none = true)
    (hpc : ∀ segs : List PathSegment, segs.length ≤ 1 → pc (Path.mk false segs) = true) :
    ∀ ins : List BareFnArg, inputs_nodes r pc (truncate_inputs ins) = true
  | [] => rfl
  | .mk n t :: rest => by
      simp only [truncate_inputs, inputs_nodes, Bool.and_eq_true]
      exact ⟨all_nodes_trunc r pc hr hpc t, inputs_nodes_trunc r pc hr hpc rest⟩

theorem ret_nodes_trunc (r : Option String → Bool) (pc : Path → Bool)
    (hr : r Option.none = true)
    (hpc : ∀ segs : List PathSegment, segs.length ≤ 1 → pc (Path.mk false segs) = true) :
    ∀ out : Option Ty, ret_nodes r pc (truncate_ret out) = true
  | Option.none => rfl
  | some t => all_nodes_trunc r pc hr hpc t

theorem bounds_nodes_trunc (r : Option String → Bool) (pc : Path → Bool)
    (hr : r Option.none = true)
    (hpc : ∀ segs : List PathSegment, segs.length ≤ 1 → pc (Path.mk false segs) = true) :
    ∀ bs : List TypeParamBound, bounds_nodes r pc (truncate_bounds bs) = true
  | [] => rfl
  | .traitBound pt mm bl p :: rest => by
      simp only [truncate_bounds, bounds_nodes, Bool.and_eq_true]
      exact ⟨path_nodes_trunc r pc hr hpc p, bounds_nodes_trunc r pc hr hpc rest⟩
  | .lifetime s :: rest => bounds_nodes_trunc r pc hr hpc rest
  | .other s :: rest => bounds_nodes_trunc r pc hr hpc rest

theorem path_nodes_trunc (r : Option String → Bool) (pc : Path → Bool)
    (hr : r Option.none = true)
    (hpc : ∀ segs : List PathSegment, segs.length ≤ 1 → pc (Path.mk false segs) = true) :
    ∀ p : Path, path_nodes r pc (truncate_path p) = true
  | .mk lc segs => by
      simp only [truncate_path, path_nodes, Bool.and_eq_true]
      have h := segs_nodes_trunc r pc hr hpc segs
      exact ⟨hpc _ h.2, h.1⟩

theorem segs_nodes_trunc (r : Option String → Bool) (pc : Path → Bool)
    (hr : r Option.none = true)
    (hpc : ∀ segs : List PathSegment, segs.length ≤ 1 → pc (Path.mk false segs) = true) :
    ∀ segs : List PathSegment,
      segs_nodes r pc (truncate_segs segs) = true ∧ (truncate_segs segs).length ≤ 1
  | [] => ⟨rfl, by simp [truncate_segs]⟩
  | [.mk id args] => by
      refine ⟨?_, by simp [truncate_segs]⟩
      simp only [truncate_segs, segs_nodes, Bool.and_eq_true]
      exact ⟨args_nodes_trunc r pc hr hpc args, trivial⟩
  | s :: s2 :: rest => by
      simpa only [truncate_segs] using segs_nodes_trunc r pc hr hpc (s2 :: rest)

theorem args_nodes_trunc (r : Option String → Bool) (pc : Path → Bool)
    (hr : r Option.none = true)
    (hpc : ∀ segs : List PathSegment, segs.length ≤ 1 → pc (Path.mk false segs) = true) :
    ∀ args : PathArguments, args_nodes r pc (truncate_arguments args) = true
  | .none => rfl
  | .angleBracketed gas => gas_nodes_trunc r pc hr hpc gas
  | .parenthesized ins out => by
      simp only [truncate_arguments, args_nodes, Bool.and_eq_true]
      exact ⟨list_nodes_trunc r pc hr hpc ins, ret_nodes_trunc r pc hr hpc out⟩

theorem gas_nodes_trunc (r : Option String → Bool) (pc : Path → Bool)
    (hr : r Option.none = true)
    (hpc : ∀ segs : List PathSegment, segs.length ≤ 1 → pc (Path.mk false segs) = true) :
    ∀ gas : List GenericArgument, gas_nodes r pc (truncate_gas gas) = true
  | [] => rfl
  | .type t :: rest => by
      simp only [truncate_gas, gas_nodes, Bool.and_eq_true]
      exact ⟨all_nodes_trunc r pc hr hpc t, gas_nodes_trunc r pc hr hpc rest⟩
  | .assocType id t :: rest => by
      simp only [truncate_gas, gas_nodes, Bool.and_eq_true]
      exact ⟨all_nodes_trunc r pc hr hpc t, gas_nodes_trunc r pc hr hpc rest⟩
  | .lifetime s :: rest => gas_nodes_trunc r pc hr hpc rest
  | .constExpr s :: rest => gas_nodes_trunc r pc hr hpc rest
  | .assocConst id s :: rest => gas_nodes_trunc r pc hr hpc rest
  | .constraint id :: rest => gas_nodes_trunc r pc hr hpc rest

end

theorem truncate_bounds_eq_map (bs : List TypeParamBound) :
    truncate_bounds bs = List.map truncate_bound bs := by
  induction bs with
  | nil => rfl
  | cons b rest ih => cases b <;> simp [truncate_bounds, truncate_bound, ih]

theorem truncate_gas_eq_map (gas : List GenericArgument) :
    truncate_gas gas = List.map truncate_ga gas := by
  induction gas with
  | nil => rfl
  | cons g rest ih => cases g <;> simp [truncate_gas, truncate_ga, ih]

theorem truncate_list_length (es : List Ty) :
    (truncate_list es).length = es.length := by
  induction es with
  | nil => rfl
  | cons t ts ih => simp [truncate_list, ih]

theorem truncate_inputs_length (ins : List BareFnArg) :
    (truncate_inputs ins).length = ins.length := by
  induction ins with
  | nil => rfl
  | cons a rest ih => cases a; simp [truncate_inputs, ih]

theorem truncate_segs_last (segs : List PathSegment) :
    truncate_segs segs =
      (segs.getLast?.map fun s =>
        PathSegment.mk s.ident (truncate_arguments s.arguments)).toList := by
  induction segs with
  | nil => rfl
  | cons s rest ih =>
    cases rest with
    | nil => cases s; rfl
    | cons s2 rest2 =>
      rw [List.getLast?_cons_cons]
      simpa only [truncate_segs] using ih

/-- C1: for every Path node, canonicalization keeps only the last segment and
clears the leading-root marker, at every nesting level the canonicalizer
reaches (arrays, slices, tuples, references, pointers, groups, function
signatures, trait bounds, generic-argument positions). -/
theorem path_truncation_everywhere :
    (∀ t : Ty, paths_truncated (truncate_type t) = true) ∧
    (∀ (lc : Bool) (segs : List PathSegment),
      (truncate_path (Path.mk lc segs)).leadingColon = false ∧
      (truncate_path (Path.mk lc segs)).segments =
        (segs.getLast?.map fun s =>
          PathSegment.mk s.ident (truncate_arguments s.arguments)).toList) := by
  constructor
  · intro t
    refine all_nodes_trunc _ _ rfl (fun segs h => ?_) t
    simp [shallow_truncated, Path.leadingColon, Path.segments, h]
  · intro lc segs
    exact ⟨rfl, truncate_segs_last segs⟩

/-- C2: every Reference node has its lifetime tag discarded unconditionally,
and the canonical output carries no lifetime tag on any reference node. -/
theorem lifetime_elision :
    (∀ (lt : Option String) (m : Bool) (e : Ty),
      truncate_type (Ty.reference lt m e) = Ty.reference Option.none m (truncate_type e)) ∧
    (∀ t : Ty, no_ref_lifetime (truncate_type t) = true) := by
  refine ⟨fun lt m e => rfl, fun t => ?_⟩
  exact all_nodes_trunc _ _ rfl (fun _ _ => rfl) t

/-- C3: a second lookup for the same type identity returns the same string,
leaves the cache unchanged, and does not run the parse-canonicalize-render
computation again (the computed flag of the second call is false). -/
theorem lookup_idempotent_cached :
    ∀ (internal : Nat → String) (t : Nat) (cache : List (Nat × String)),
      type_name internal t (type_name internal t cache).2.1 =
        ((type_name internal t cache).1, (type_name internal t cache).2.1, false) := by
  intro internal t cache
  cases h : cache_find cache t <;> simp [type_name, h, cache_find]

/-- C4: when the verbose descriptor fails to parse, the result is the fixed
sentinel, not a failure. -/
theorem parse_failure_returns_sentinel :
    ∀ (parse : String → Option Ty) (format_tokens : Ty → Option String) (d : String),
      parse d = Option.none →
      type_name_internal parse format_tokens d = some error_sentinel := by
  intro parse format_tokens d h
  simp [type_name_internal, h]

theorem parse_failure_returns_sentinel_witness :
    type_name_internal (fun _ => Option.none) (fun _ => Option.none) "x" =
      some error_sentinel :=
  parse_failure_returns_sentinel _ _ _ rfl

/-- C5 evaluation: when the formatting engine fails, `type_name_internal`
substitutes the sentinel for the formatter output but then slices it between
byte 13 and byte 2, which panics (embedded as `Option.none`) instead of
returning the sentinel. -/
theorem format_failure_panics :
    type_name_internal (fun _ => some Ty.never) (fun _ => Option.none) "t" =
      Option.none := by
  decide

/-- C6: canonicalization preserves tuple arity, function-parameter arity, and
the generic-argument arity of the surviving path segment. -/
theorem arity_preservation :
    (∀ t : Ty, tuple_arity (truncate_type t) = tuple_arity t) ∧
    (∀ t : Ty, fn_param_arity (truncate_type t) = fn_param_arity t) ∧
    (∀ p : Path, last_seg_generic_arity (truncate_path p) = last_seg_generic_arity p) := by
  refine ⟨fun t => ?_, fun t => ?_, fun p => ?_⟩
  · cases t <;> simp [truncate_type, tuple_arity, truncate_list_length]
  · cases t <;> simp [truncate_type, fn_param_arity, truncate_inputs_length]
  · obtain ⟨lc, segs⟩ := p
    rw [show truncate_path (Path.mk lc segs) = Path.mk false (truncate_segs segs) from rfl]
    rw [truncate_segs_last]
    cases h : segs.getLast? with
    | none => simp [last_seg_generic_arity, h]
    | some s =>
      obtain ⟨id, args⟩ := s
      cases args <;>
        simp [last_seg_generic_arity, h, PathSegment.ident, PathSegment.arguments,
          truncate_arguments, truncate_gas_eq_map]

/-- C7: the canonicalizer is a total function (accepted by the termination
checker), and the variants without explicit handling (the non-exhaustive
catch-all, verbatim and macro token streams, the inferred placeholder and the
never type) pass through completely untouched. -/
theorem canonicalizer_total_noop_on_unrecognized :
    (∀ s : String, truncate_type (Ty.other s) = Ty.other s ∧
      truncate_type (Ty.verbatim s) = Ty.verbatim s ∧
      truncate_type (Ty.mac s) = Ty.mac s) ∧
    truncate_type Ty.infer = Ty.infer ∧
    truncate_type Ty.never = Ty.never ∧
    (∀ t : Ty, ∃ r : Ty, truncate_type t = r) :=
  ⟨fun _ => ⟨rfl, rfl, rfl⟩, rfl, rfl, fun t => ⟨truncate_type t, rfl⟩⟩

/-- C8: trait-object and impl-trait nodes path-truncate every trait bound
(marker bounds exactly like the primary bound) while preserving declaration
order; in particular the qualified Display-plus-Send trait object
canonicalizes to its short form. -/
theorem trait_bounds_truncated_in_order :
    (∀ (d : Bool) (bs : List TypeParamBound),
      truncate_type (Ty.traitObject d bs) = Ty.traitObject d (List.map truncate_bound bs)) ∧
    (∀ bs : List TypeParamBound,
      truncate_type (Ty.implTrait bs) = Ty.implTrait (List.map truncate_bound bs)) ∧
    truncate_type dyn_display_send_example =
      Ty.traitObject true
        [TypeParamBound.traitBound false false Option.none
           (Path.mk false [PathSegment.mk "Display" PathArguments.none]),
         TypeParamBound.traitBound false false Option.none
           (Path.mk false [PathSegment.mk "Send" PathArguments.none])] := by
  refine ⟨fun d bs => ?_, fun bs => ?_, rfl⟩
  · simp [truncate_type, truncate_bounds_eq_map]
  · simp [truncate_type, truncate_bounds_eq_map]

/-- C9: an empty path canonicalizes to an empty path with the leading-root
marker cleared, rather than failing. -/
theorem empty_path_to_empty_path :
    ∀ lc : Bool, truncate_path (Path.mk lc []) = Path.mk false [] :=
  fun _ => rfl

/-- C10: canonicalization of bound lists touches only trait bounds, and of
generic-argument lists only type and associated-type arguments; lifetime
bounds, lifetime arguments, const arguments, associated-const arguments and
constraints pass through unchanged, as the concrete Debug-plus-static trait
object illustrates. -/
theorem non_trait_positions_untouched :
    (∀ bs : List TypeParamBound, truncate_bounds bs = List.map truncate_bound bs) ∧
    (∀ s : String, truncate_bound (TypeParamBound.lifetime s) = TypeParamBound.lifetime s) ∧
    (∀ s : String, truncate_bound (TypeParamBound.other s) = TypeParamBound.other s) ∧
    (∀ gas : List GenericArgument, truncate_gas gas = List.map truncate_ga gas) ∧
    (∀ s : String, truncate_ga (GenericArgument.lifetime s) = GenericArgument.lifetime s) ∧
    (∀ s : String, truncate_ga (GenericArgument.constExpr s) = GenericArgument.constExpr s) ∧
    (∀ id s : String,
      truncate_ga (GenericArgument.assocConst id s) = GenericArgument.assocConst id s) ∧
    (∀ id : String, truncate_ga (GenericArgument.constraint id) = GenericArgument.constraint id) ∧
    truncate_type dyn_debug_static_example =
      Ty.traitObject true
        [TypeParamBound.traitBound false false Option.none
           (Path.mk false [PathSegment.mk "Debug" PathArguments.none]),
         TypeParamBound.lifetime "static"] :=
  ⟨truncate_bounds_eq_map, fun _ => rfl, fun _ => rfl, truncate_gas_eq_map,
   fun _ => rfl, fun _ => rfl, fun _ _ => rfl, fun _ => rfl, rfl⟩

end PrettyName
